import Mathlib

/-!
Shallow embedding of the Voronoi diagram application core
(`src/voronoi-core.js` and the classifier functions embedded in
`.github/workflows/tests.yml`), together with theorems settling the
specification claims about it.

Modelling conventions:
* JavaScript numbers are embedded as real numbers (`ℝ`) for the distance
  engine and the point generators, whose interesting behaviour is exact
  arithmetic with `sqrt` / `pow` / `log` / trigonometry.
* For `createGridOfPoints` and `getCentroid`, whose claimed behaviour hinges
  on the IEEE-754 special values (`0 * Infinity = NaN`, `0 / 0 = NaN`,
  `x / 0 = ±Infinity`), JavaScript numbers are embedded as `JSNum`,
  rationals extended with `NaN` and the two infinities, with the IEEE
  rules for `+`, `*`, `/` spelled out.
* `Math.pow` is `Real.rpow`, `Math.sqrt` is `Real.sqrt`, `Math.log` is
  `Real.log`, `Math.abs` is `|·|`, variadic `Math.min` is a left fold of
  binary `min`.
* `Array.prototype.sort(cmp)` with a numeric comparator `key a - key b` is
  required (ES2019) to be a stable sort consistent with the comparator;
  the stable sort for a total preorder is unique, and
  `List.insertionSort (fun a b => key a ≤ key b)` (which inserts a later
  element after earlier equal-key elements) is exactly that stable sort.
  The default `Array.prototype.sort()` (used on the higher-order index
  subset) compares the decimal string representations of the numbers,
  modelled by comparing `(Nat.repr ·).data` lexicographically.
-/

/-! ## IEEE-754 special-value model used by the grid generator and centroid -/

/-- A JavaScript double restricted to the values produced by `+`, `*`, `/`
on rational inputs: a rational, `NaN`, `Infinity` or `-Infinity`. -/
inductive JSNum where
  | nan : JSNum
  | inf : JSNum
  | ninf : JSNum
  | fin : ℚ → JSNum
deriving DecidableEq

/-- IEEE-754 addition on `JSNum` (JS `+`). -/
def jadd : JSNum → JSNum → JSNum
  | JSNum.nan, _ => JSNum.nan
  | _, JSNum.nan => JSNum.nan
  | JSNum.inf, JSNum.ninf => JSNum.nan
  | JSNum.ninf, JSNum.inf => JSNum.nan
  | JSNum.inf, _ => JSNum.inf
  | _, JSNum.inf => JSNum.inf
  | JSNum.ninf, _ => JSNum.ninf
  | _, JSNum.ninf => JSNum.ninf
  | JSNum.fin a, JSNum.fin b => JSNum.fin (a + b)

/-- IEEE-754 multiplication on `JSNum` (JS `*`); in particular
`0 * Infinity = NaN`. -/
def jmul : JSNum → JSNum → JSNum
  | JSNum.nan, _ => JSNum.nan
  | _, JSNum.nan => JSNum.nan
  | JSNum.inf, JSNum.inf => JSNum.inf
  | JSNum.inf, JSNum.ninf => JSNum.ninf
  | JSNum.ninf, JSNum.inf => JSNum.ninf
  | JSNum.ninf, JSNum.ninf => JSNum.inf
  | JSNum.inf, JSNum.fin b =>
      if b = 0 then JSNum.nan else if 0 < b then JSNum.inf else JSNum.ninf
  | JSNum.fin a, JSNum.inf =>
      if a = 0 then JSNum.nan else if 0 < a then JSNum.inf else JSNum.ninf
  | JSNum.ninf, JSNum.fin b =>
      if b = 0 then JSNum.nan else if 0 < b then JSNum.ninf else JSNum.inf
  | JSNum.fin a, JSNum.ninf =>
      if a = 0 then JSNum.nan else if 0 < a then JSNum.ninf else JSNum.inf
  | JSNum.fin a, JSNum.fin b => JSNum.fin (a * b)

/-- IEEE-754 division on `JSNum` (JS `/`); in particular `0 / 0 = NaN` and
`x / 0 = ±Infinity` for `x ≠ 0`. (The sign of a zero divisor is positive
here: the only zero denominators the embedded code produces are exact
integer zeros like `cols - 1`.) -/
def jdiv : JSNum → JSNum → JSNum
  | JSNum.nan, _ => JSNum.nan
  | _, JSNum.nan => JSNum.nan
  | JSNum.inf, JSNum.inf => JSNum.nan
  | JSNum.inf, JSNum.ninf => JSNum.nan
  | JSNum.ninf, JSNum.inf => JSNum.nan
  | JSNum.ninf, JSNum.ninf => JSNum.nan
  | JSNum.inf, JSNum.fin b => if 0 ≤ b then JSNum.inf else JSNum.ninf
  | JSNum.ninf, JSNum.fin b => if 0 ≤ b then JSNum.ninf else JSNum.inf
  | JSNum.fin _, JSNum.inf => JSNum.fin 0
  | JSNum.fin _, JSNum.ninf => JSNum.fin 0
  | JSNum.fin a, JSNum.fin b =>
      if b = 0 then
        (if a = 0 then JSNum.nan else if 0 < a then JSNum.inf else JSNum.ninf)
      else JSNum.fin (a / b)

/-- Source `createGridOfPoints(rows, cols, width, height)` from
`src/voronoi-core.js` lines 257-274.  The margins and cell sizes are the
source expressions `width * 0.15`, `(width - 2*marginX)/(cols - 1)`, etc.;
the nested loops over `i < rows`, `j < cols` push
`(marginX + j*cellWidth, marginY + i*cellHeight)`. -/
def createGridOfPoints (rows cols : ℕ) (width height : ℚ) : List (JSNum × JSNum) :=
  (List.range rows).flatMap (fun (i : ℕ) =>
    (List.range cols).map (fun (j : ℕ) =>
      (jadd (JSNum.fin (width * 0.15))
         (jmul (JSNum.fin ((j : ℕ) : ℚ))
           (jdiv (JSNum.fin (width - 2 * (width * 0.15))) (JSNum.fin ((cols : ℚ) - 1)))),
       jadd (JSNum.fin (height * 0.15))
         (jmul (JSNum.fin ((i : ℕ) : ℚ))
           (jdiv (JSNum.fin (height - 2 * (height * 0.15))) (JSNum.fin ((rows : ℚ) - 1)))))))

/-- Source `getCentroid(points)` from `src/voronoi-core.js` lines 163-173:
accumulate coordinate sums with `+`, then divide both by
`points.length`. -/
def getCentroid (points : List (JSNum × JSNum)) : JSNum × JSNum :=
  (jdiv (points.foldl (fun acc p => jadd acc p.1) (JSNum.fin 0))
     (JSNum.fin (points.length : ℚ)),
   jdiv (points.foldl (fun acc p => jadd acc p.2) (JSNum.fin 0))
     (JSNum.fin (points.length : ℚ)))

/-! ## Real-number embedding of the distance metric engine -/

/-- JavaScript `Math.pow` (both arguments arbitrary reals). -/
noncomputable def jpow (x y : ℝ) : ℝ := Real.rpow x y

/-- JavaScript `a || b` on numbers, as used in
`(nx2 - nx1) || 0.000001`: the left operand unless it is (falsy) zero. -/
noncomputable def jsOr (a b : ℝ) : ℝ := if a = 0 then b else a

/-- The slope `m` of the hilbert branch
(`src/voronoi-core.js` line 69): `(ny2 - ny1) / ((nx2 - nx1) || 0.000001)`. -/
noncomputable def hilbertM (nx1 ny1 nx2 ny2 : ℝ) : ℝ :=
  (ny2 - ny1) / jsOr (nx2 - nx1) 0.000001

/-- The intercept `b` (line 70): `ny1 - m * nx1`. -/
noncomputable def hilbertB (nx1 ny1 nx2 ny2 : ℝ) : ℝ :=
  ny1 - hilbertM nx1 ny1 nx2 ny2 * nx1

/-- The `intersections` array (lines 73-100): candidate intersections of the
line `y = m x + b` with the four sides of the unit square, pushed in source
order (left, right, top, bottom), the top/bottom ones guarded by
`|m| > 0.000001`. -/
noncomputable def hilbertIntersections (m b : ℝ) : List (ℝ × ℝ) :=
  (if 0 ≤ b ∧ b ≤ 1 then [((0 : ℝ), b)] else []) ++
    (if 0 ≤ m + b ∧ m + b ≤ 1 then [((1 : ℝ), m + b)] else []) ++
      (if 0.000001 < |m| then
        (if 0 ≤ -b / m ∧ -b / m ≤ 1 then [(-b / m, (0 : ℝ))] else []) else []) ++
        (if 0.000001 < |m| then
          (if 0 ≤ (1 - b) / m ∧ (1 - b) / m ≤ 1 then [((1 - b) / m, (1 : ℝ))] else []) else [])

/-- The `intersections` array for the (normalized) input points. -/
noncomputable def hilbertInters (nx1 ny1 nx2 ny2 : ℝ) : List (ℝ × ℝ) :=
  hilbertIntersections (hilbertM nx1 ny1 nx2 ny2) (hilbertB nx1 ny1 nx2 ny2)

/-- The quantity `lineDist` (line 116): `Math.sqrt(dx*dx + dy*dy)`. -/
noncomputable def hilbertLineDist (nx1 ny1 nx2 ny2 : ℝ) : ℝ :=
  Real.sqrt ((nx2 - nx1) * (nx2 - nx1) + (ny2 - ny1) * (ny2 - ny1))

/-- The quantity `dirX` (line 117). -/
noncomputable def hilbertDirX (nx1 ny1 nx2 ny2 : ℝ) : ℝ :=
  (nx2 - nx1) / hilbertLineDist nx1 ny1 nx2 ny2

/-- The quantity `dirY` (line 118). -/
noncomputable def hilbertDirY (nx1 ny1 nx2 ny2 : ℝ) : ℝ :=
  (ny2 - ny1) / hilbertLineDist nx1 ny1 nx2 ny2

/-- The projection used as the sort key (lines 121-125). -/
noncomputable def hilbertProj (nx1 ny1 nx2 ny2 : ℝ) (a : ℝ × ℝ) : ℝ :=
  (a.1 - nx1) * hilbertDirX nx1 ny1 nx2 ny2 + (a.2 - ny1) * hilbertDirY nx1 ny1 nx2 ny2

/-- Source `intersections.sort(...)` (lines 121-125): the stable sort by
projection onto the line direction. -/
noncomputable def hilbertSorted (nx1 ny1 nx2 ny2 : ℝ) : List (ℝ × ℝ) :=
  List.insertionSort
    (fun a b => hilbertProj nx1 ny1 nx2 ny2 a ≤ hilbertProj nx1 ny1 nx2 ny2 b)
    (hilbertInters nx1 ny1 nx2 ny2)

/-- The point `B1 = intersections[0]` after the sort (line 128). -/
noncomputable def hilbertBnd1 (nx1 ny1 nx2 ny2 : ℝ) : ℝ × ℝ :=
  (hilbertSorted nx1 ny1 nx2 ny2).headD (0, 0)

/-- The point `B2 = intersections[intersections.length - 1]` (line 129). -/
noncomputable def hilbertBnd2 (nx1 ny1 nx2 ny2 : ℝ) : ℝ × ℝ :=
  (hilbertSorted nx1 ny1 nx2 ny2).getLastD (0, 0)

/-- The expression `Math.sqrt(Math.pow(p.x - q.x, 2) + Math.pow(p.y - q.y, 2))`, the shape
of every point-to-point distance in the hilbert branch (lines 132-135). -/
noncomputable def dist2 (p q : ℝ × ℝ) : ℝ :=
  Real.sqrt (jpow (p.1 - q.1) 2 + jpow (p.2 - q.2) 2)

/-- The quantity `D11` (line 132): distance from P1 to B1. -/
noncomputable def hilbertD11 (nx1 ny1 nx2 ny2 : ℝ) : ℝ :=
  dist2 (nx1, ny1) (hilbertBnd1 nx1 ny1 nx2 ny2)

/-- The quantity `D12` (line 133): distance from P1 to B2. -/
noncomputable def hilbertD12 (nx1 ny1 nx2 ny2 : ℝ) : ℝ :=
  dist2 (nx1, ny1) (hilbertBnd2 nx1 ny1 nx2 ny2)

/-- The quantity `D21` (line 134): distance from P2 to B1. -/
noncomputable def hilbertD21 (nx1 ny1 nx2 ny2 : ℝ) : ℝ :=
  dist2 (nx2, ny2) (hilbertBnd1 nx1 ny1 nx2 ny2)

/-- The quantity `D22` (line 135): distance from P2 to B2. -/
noncomputable def hilbertD22 (nx1 ny1 nx2 ny2 : ℝ) : ℝ :=
  dist2 (nx2, ny2) (hilbertBnd2 nx1 ny1 nx2 ny2)

/-- Lines 137-151: the small-distance guard returning
`100000 / (Math.min(D11, D12, D21, D22) + epsilon)`, else the cross-ratio
value `0.5 * |log((D12*D21)/(D22*D11))|` scaled by `Math.min(width, height)`. -/
noncomputable def hilbertCross (nx1 ny1 nx2 ny2 width height : ℝ) : ℝ :=
  if hilbertD11 nx1 ny1 nx2 ny2 < 0.000001 ∨ hilbertD12 nx1 ny1 nx2 ny2 < 0.000001 ∨
      hilbertD21 nx1 ny1 nx2 ny2 < 0.000001 ∨ hilbertD22 nx1 ny1 nx2 ny2 < 0.000001 then
    100000 /
      (min (min (min (hilbertD11 nx1 ny1 nx2 ny2) (hilbertD12 nx1 ny1 nx2 ny2))
          (hilbertD21 nx1 ny1 nx2 ny2)) (hilbertD22 nx1 ny1 nx2 ny2) + 0.000001)
  else
    0.5 * |Real.log ((hilbertD12 nx1 ny1 nx2 ny2 * hilbertD21 nx1 ny1 nx2 ny2) /
        (hilbertD22 nx1 ny1 nx2 ny2 * hilbertD11 nx1 ny1 nx2 ny2))| * min width height

/-- The quantities `d1Min`/`d2Min` (lines 53-63): variadic `Math.min` of the four
normalized distances to the boundary. -/
noncomputable def boundaryMin (nx ny : ℝ) : ℝ :=
  min (min (min nx (1 - nx)) ny) (1 - ny)

/-- The hilbert branch after normalization: the fewer-than-two-intersections
fallback (lines 104-111) or the cross-ratio computation. -/
noncomputable def hilbertBody (nx1 ny1 nx2 ny2 width height : ℝ) : ℝ :=
  if (hilbertInters nx1 ny1 nx2 ny2).length < 2 then
    Real.sqrt (jpow (nx2 - nx1) 2 + jpow (ny2 - ny1) 2) *
      (1 / (min (boundaryMin nx1 ny1) (boundaryMin nx2 ny2) + 0.01)) * min width height
  else hilbertCross nx1 ny1 nx2 ny2 width height

/-- The whole `case 'hilbert'` branch (lines 36-151): `0` for identical
points, otherwise the body on coordinates normalized by the canvas bounds. -/
noncomputable def hilbertDistance (x1 y1 x2 y2 width height : ℝ) : ℝ :=
  if x1 = x2 ∧ y1 = y2 then 0
  else hilbertBody (x1 / width) (y1 / height) (x2 / width) (y2 / height) width height

/-- Source `calculateDistance(x1, y1, x2, y2, distanceMetric, pValue, width, height)`
from `src/voronoi-core.js` lines 24-155; the `switch` is an equality chain on
the metric string, with the `default` case equal to the euclidean one. -/
noncomputable def calculateDistance (x1 y1 x2 y2 : ℝ) (distanceMetric : String)
    (pValue width height : ℝ) : ℝ :=
  if distanceMetric = "manhattan" then |x1 - x2| + |y1 - y2|
  else if distanceMetric = "euclidean" then
    Real.sqrt (jpow (x1 - x2) 2 + jpow (y1 - y2) 2)
  else if distanceMetric = "minkowski" then
    jpow (jpow |x1 - x2| pValue + jpow |y1 - y2| pValue) (1 / pValue)
  else if distanceMetric = "hilbert" then hilbertDistance x1 y1 x2 y2 width height
  else Real.sqrt (jpow (x1 - x2) 2 + jpow (y1 - y2) 2)

/-! ## The classifier functions from `.github/workflows/tests.yml` -/

/-- The `calculateDistance` local to the classifier script
(`tests.yml` lines 135-151): euclidean, manhattan, minkowski and the
euclidean default; no hilbert case, no canvas bounds. -/
noncomputable def ymlCalculateDistance (distanceMetric : String) (pValue : ℝ)
    (x1 y1 x2 y2 : ℝ) : ℝ :=
  if distanceMetric = "manhattan" then |x1 - x2| + |y1 - y2|
  else if distanceMetric = "euclidean" then
    Real.sqrt (jpow (x1 - x2) 2 + jpow (y1 - y2) 2)
  else if distanceMetric = "minkowski" then
    jpow (jpow |x1 - x2| pValue + jpow |y1 - y2| pValue) (1 / pValue)
  else Real.sqrt (jpow (x1 - x2) 2 + jpow (y1 - y2) 2)

/-- The `points.forEach((point, index) => ...)` enumeration building
`{index, dist}` records, `dist = calculateDistance(point.x, point.y, x, y)`
(`tests.yml` lines 256-260), with the running index made explicit. -/
noncomputable def distPairsFrom (distanceMetric : String) (pValue x y : ℝ) :
    ℕ → List (ℝ × ℝ) → List (ℕ × ℝ)
  | _, [] => []
  | i, pt :: rest =>
      (i, ymlCalculateDistance distanceMetric pValue pt.1 pt.2 x y) ::
        distPairsFrom distanceMetric pValue x y (i + 1) rest

/-- The full `distances` array for a sample `(x, y)`. -/
noncomputable def distPairs (distanceMetric : String) (pValue x y : ℝ)
    (points : List (ℝ × ℝ)) : List (ℕ × ℝ) :=
  distPairsFrom distanceMetric pValue x y 0 points

/-- The first-order scan (`tests.yml` lines 161-175): start from
`minDist = Infinity`, `closestPoint = null`, replace only on strictly
smaller distance.  Since every real distance is below `Infinity`, the first
element always replaces the `null` state. -/
noncomputable def scanMin : Option (ℕ × ℝ) → List (ℕ × ℝ) → Option (ℕ × ℝ)
  | st, [] => st
  | none, q :: rest => scanMin (some q) rest
  | some (j, m), (i, d) :: rest =>
      scanMin (if d < m then some (i, d) else some (j, m)) rest

/-- The site chosen by `generateFirstOrderVoronoi` for a sample `(x, y)`
(`tests.yml` lines 159-187), together with its distance. -/
noncomputable def firstOrderPick (distanceMetric : String) (pValue : ℝ)
    (points : List (ℝ × ℝ)) (x y : ℝ) : Option (ℕ × ℝ) :=
  scanMin none (distPairs distanceMetric pValue x y points)

/-- Source `distances.sort((a, b) => a.dist - b.dist)` (`tests.yml` line 263): the
stable sort keyed on distance alone. -/
noncomputable def sortedDistances (distanceMetric : String) (pValue x y : ℝ)
    (points : List (ℝ × ℝ)) : List (ℕ × ℝ) :=
  List.insertionSort (fun a b : ℕ × ℝ => a.2 ≤ b.2)
    (distPairs distanceMetric pValue x y points)

/-- The comparison performed by the default `Array.prototype.sort()` on
numbers: lexicographic order of their decimal string representations
(`¬ (repr b < repr a)` is `repr a ≤ repr b`). -/
def jsStrSortLe (a b : ℕ) : Prop := ¬ ((Nat.repr b).data < (Nat.repr a).data)

instance : DecidableRel jsStrSortLe := fun a b =>
  inferInstanceAs (Decidable (¬ _))

/-- Source `distances.slice(0, voronoiOrder).map(d => d.index).sort()`
(`tests.yml` line 269): the first `order` site indices of the stable
distance sort, sorted by the default (string-comparing) array sort. -/
noncomputable def higherOrderKeyIndices (distanceMetric : String) (pValue x y : ℝ)
    (points : List (ℝ × ℝ)) (order : ℕ) : List ℕ :=
  List.insertionSort jsStrSortLe
    (((sortedDistances distanceMetric pValue x y points).take order).map Prod.fst)

/-- The contributing-set key `....join('-')` (`tests.yml` line 269). -/
noncomputable def higherOrderKey (distanceMetric : String) (pValue x y : ℝ)
    (points : List (ℝ × ℝ)) (order : ℕ) : String :=
  String.intercalate ("-")
    ((higherOrderKeyIndices distanceMetric pValue x y points order).map Nat.repr)

/-- Modelled from the claim's words, for comparison with `higherOrderKey`:
take the first `order` site indices of the distance sort, sort that subset
ascending **by numeric index**, and hyphen-join it. -/
noncomputable def specNumericKey (distanceMetric : String) (pValue x y : ℝ)
    (points : List (ℝ × ℝ)) (order : ℕ) : String :=
  String.intercalate ("-")
    ((List.insertionSort (fun a b : ℕ => a ≤ b)
      (((sortedDistances distanceMetric pValue x y points).take order).map Prod.fst)).map
        Nat.repr)

/-! ## Point generators over `ℝ` -/

/-- Source `createRegularPolygon(sides, radius, width, height)` from
`src/voronoi-core.js` lines 184-200: `sides` points at angles
`-π/2 + i * (2π/sides)` on the circle of the given radius about the canvas
center. -/
noncomputable def createRegularPolygon (sides : ℕ) (radius width height : ℝ) :
    List (ℝ × ℝ) :=
  (List.range sides).map (fun (i : ℕ) =>
    (width / 2 + radius * Real.cos (-(Real.pi / 2) + ((i : ℕ) : ℝ) * (2 * Real.pi / (sides : ℝ))),
     height / 2 + radius * Real.sin (-(Real.pi / 2) + ((i : ℕ) : ℝ) * (2 * Real.pi / (sides : ℝ)))))

/-! ## Basic facts about the embedded primitives -/

theorem jpow_def (x y : ℝ) : jpow x y = x ^ y := rfl

theorem jpow_two (x : ℝ) : jpow x 2 = x ^ 2 := by
  rw [jpow_def]; exact Real.rpow_two x

theorem jpow_one (x : ℝ) : jpow x 1 = x := Real.rpow_one x

theorem dist2_nonneg (p q : ℝ × ℝ) : 0 ≤ dist2 p q := Real.sqrt_nonneg _

theorem calculateDistance_manhattan (x1 y1 x2 y2 pValue width height : ℝ) :
    calculateDistance x1 y1 x2 y2 ("manhattan") pValue width height =
      |x1 - x2| + |y1 - y2| := by
  unfold calculateDistance; rw [if_pos rfl]

theorem calculateDistance_euclidean (x1 y1 x2 y2 pValue width height : ℝ) :
    calculateDistance x1 y1 x2 y2 ("euclidean") pValue width height =
      Real.sqrt (jpow (x1 - x2) 2 + jpow (y1 - y2) 2) := by
  unfold calculateDistance; rw [if_neg (by decide), if_pos rfl]

theorem calculateDistance_minkowski (x1 y1 x2 y2 pValue width height : ℝ) :
    calculateDistance x1 y1 x2 y2 ("minkowski") pValue width height =
      jpow (jpow |x1 - x2| pValue + jpow |y1 - y2| pValue) (1 / pValue) := by
  unfold calculateDistance
  rw [if_neg (by decide), if_neg (by decide), if_pos rfl]

theorem calculateDistance_hilbert (x1 y1 x2 y2 pValue width height : ℝ) :
    calculateDistance x1 y1 x2 y2 ("hilbert") pValue width height =
      hilbertDistance x1 y1 x2 y2 width height := by
  unfold calculateDistance
  rw [if_neg (by decide), if_neg (by decide), if_neg (by decide), if_pos rfl]

/-- Claim C4: for every pair of points and every metric-kind string other
than the four recognized ones, `calculateDistance` never raises and returns
exactly the euclidean distance `sqrt((x1-x2)^2 + (y1-y2)^2)` (which is also
what the explicit euclidean branch returns). -/
theorem C4_unknown_metric (x1 y1 x2 y2 pValue width height : ℝ) (metric : String)
    (h1 : metric ≠ "euclidean") (h2 : metric ≠ "manhattan")
    (h3 : metric ≠ "minkowski") (h4 : metric ≠ "hilbert") :
    calculateDistance x1 y1 x2 y2 metric pValue width height =
        Real.sqrt ((x1 - x2) ^ 2 + (y1 - y2) ^ 2) ∧
      calculateDistance x1 y1 x2 y2 metric pValue width height =
        calculateDistance x1 y1 x2 y2 ("euclidean") pValue width height := by
  have hdef : calculateDistance x1 y1 x2 y2 metric pValue width height =
      Real.sqrt (jpow (x1 - x2) 2 + jpow (y1 - y2) 2) := by
    unfold calculateDistance
    rw [if_neg h2, if_neg h1, if_neg h3, if_neg h4]
  refine ⟨?_, ?_⟩
  · rw [hdef, jpow_two, jpow_two]
  · rw [hdef, calculateDistance_euclidean]

theorem C4_witness :
    (("chebyshev" : String) ≠ "euclidean" ∧ ("chebyshev" : String) ≠ "manhattan" ∧
        ("chebyshev" : String) ≠ "minkowski" ∧ ("chebyshev" : String) ≠ "hilbert") ∧
      calculateDistance 0 0 3 4 ("chebyshev") 2 800 600 =
          Real.sqrt (((0 : ℝ) - 3) ^ 2 + ((0 : ℝ) - 4) ^ 2) ∧
        calculateDistance 0 0 3 4 ("chebyshev") 2 800 600 =
          calculateDistance 0 0 3 4 ("euclidean") 2 800 600 :=
  ⟨⟨by decide, by decide, by decide, by decide⟩,
    C4_unknown_metric 0 0 3 4 2 800 600 ("chebyshev")
      (by decide) (by decide) (by decide) (by decide)⟩

/-- Claim C6: `calculateDistance` with metric `minkowski` degenerates to the
manhattan distance at `pValue = 1` and to the euclidean distance at
`pValue = 2` (exactly, in the real-number embedding). -/
theorem C6_minkowski_special_cases (x1 y1 x2 y2 width height : ℝ) :
    calculateDistance x1 y1 x2 y2 ("minkowski") 1 width height =
        calculateDistance x1 y1 x2 y2 ("manhattan") 1 width height ∧
      calculateDistance x1 y1 x2 y2 ("minkowski") 2 width height =
        calculateDistance x1 y1 x2 y2 ("euclidean") 2 width height := by
  rw [calculateDistance_minkowski, calculateDistance_manhattan,
    calculateDistance_minkowski, calculateDistance_euclidean]
  constructor
  · rw [show (1 : ℝ) / 1 = 1 by norm_num, jpow_one, jpow_one, jpow_one]
  · rw [jpow_two, jpow_two, jpow_two, jpow_two, sq_abs, sq_abs, jpow_def,
      Real.sqrt_eq_rpow]

/-- Claim C8: for every point, every metric string (recognized or not) and
every positive `pValue`, the distance from a point to itself is `0`. -/
theorem C8_self_distance (x y : ℝ) (metric : String) (pValue width height : ℝ)
    (hp : 0 < pValue) :
    calculateDistance x y x y metric pValue width height = 0 := by
  unfold calculateDistance
  by_cases h1 : metric = "manhattan"
  · rw [if_pos h1]; simp
  rw [if_neg h1]
  by_cases h2 : metric = "euclidean"
  · rw [if_pos h2]
    simp only [sub_self, jpow_def]
    rw [Real.zero_rpow (by norm_num)]
    simp
  rw [if_neg h2]
  by_cases h3 : metric = "minkowski"
  · rw [if_pos h3]
    simp only [sub_self, abs_zero, jpow_def]
    rw [Real.zero_rpow hp.ne', add_zero, Real.zero_rpow (one_div_ne_zero hp.ne')]
  rw [if_neg h3]
  by_cases h4 : metric = "hilbert"
  · rw [if_pos h4, hilbertDistance, if_pos ⟨rfl, rfl⟩]
  · rw [if_neg h4]
    simp only [sub_self, jpow_def]
    rw [Real.zero_rpow (by norm_num)]
    simp

theorem C8_witness :
    (0 : ℝ) < 3 ∧ calculateDistance 1 2 1 2 ("minkowski") 3 800 600 = 0 :=
  ⟨by norm_num, C8_self_distance 1 2 ("minkowski") 3 800 600 (by norm_num)⟩

/-! ## Facts about the `JSNum` functions: centroid and grid -/

theorem centroid_foldl_fst :
    ∀ (l : List (ℚ × ℚ)) (a : ℚ),
      ((l.map (fun q => (JSNum.fin q.1, JSNum.fin q.2))).foldl
          (fun acc p => jadd acc p.1) (JSNum.fin a)) =
        JSNum.fin (a + (l.map Prod.fst).sum)
  | [], a => by simp
  | q :: t, a => by
    simp only [List.map_cons, List.foldl_cons]
    rw [show jadd (JSNum.fin a) (JSNum.fin q.1) = JSNum.fin (a + q.1) from rfl,
      centroid_foldl_fst t (a + q.1)]
    simp [add_assoc]

theorem centroid_foldl_snd :
    ∀ (l : List (ℚ × ℚ)) (a : ℚ),
      ((l.map (fun q => (JSNum.fin q.1, JSNum.fin q.2))).foldl
          (fun acc p => jadd acc p.2) (JSNum.fin a)) =
        JSNum.fin (a + (l.map Prod.snd).sum)
  | [], a => by simp
  | q :: t, a => by
    simp only [List.map_cons, List.foldl_cons]
    rw [show jadd (JSNum.fin a) (JSNum.fin q.2) = JSNum.fin (a + q.2) from rfl,
      centroid_foldl_snd t (a + q.2)]
    simp [add_assoc]

/-- Claim C10: `getCentroid` is total and never raises: on the empty array
it returns `(NaN, NaN)` (the result of the `0/0` divisions), and on every
non-empty array of finite points it returns the coordinate-wise mean. -/
theorem C10_centroid :
    getCentroid [] = (JSNum.nan, JSNum.nan) ∧
      ∀ qs : List (ℚ × ℚ), qs ≠ [] →
        getCentroid (qs.map (fun q => (JSNum.fin q.1, JSNum.fin q.2))) =
          (JSNum.fin ((qs.map Prod.fst).sum / (qs.length : ℚ)),
           JSNum.fin ((qs.map Prod.snd).sum / (qs.length : ℚ))) := by
  constructor
  · rfl
  · intro qs h
    have hn : ((qs.length : ℚ)) ≠ 0 :=
      Nat.cast_ne_zero.mpr (List.length_pos.mpr h).ne'
    unfold getCentroid
    rw [centroid_foldl_fst qs 0, centroid_foldl_snd qs 0]
    simp only [zero_add, List.length_map]
    rw [show ∀ a b : ℚ, b ≠ 0 → jdiv (JSNum.fin a) (JSNum.fin b) = JSNum.fin (a / b) from
        fun a b hb => by simp [jdiv, hb], show ∀ a b : ℚ, b ≠ 0 →
          jdiv (JSNum.fin a) (JSNum.fin b) = JSNum.fin (a / b) from
        fun a b hb => by simp [jdiv, hb]]
    · exact hn
    · exact hn

theorem C10_witness :
    ([((0 : ℚ), (0 : ℚ)), (4, 0), (2, 4)] : List (ℚ × ℚ)) ≠ [] ∧
      getCentroid (([((0 : ℚ), (0 : ℚ)), (4, 0), (2, 4)] : List (ℚ × ℚ)).map
          (fun q => (JSNum.fin q.1, JSNum.fin q.2))) =
        (JSNum.fin 2, JSNum.fin (4 / 3)) := by
  refine ⟨by simp, ?_⟩
  rw [C10_centroid.2 [((0 : ℚ), (0 : ℚ)), (4, 0), (2, 4)] (by simp)]
  norm_num

theorem flatMap_singleton_map {α β : Type} (l : List α) (g : α → β) :
    (l.flatMap fun i => [g i]) = l.map g := by
  induction l with
  | nil => simp
  | cons x t ih => simp [ih]

theorem jmul_zero_jdiv_zero (a : ℚ) :
    jmul (JSNum.fin 0) (jdiv (JSNum.fin a) (JSNum.fin 0)) = JSNum.nan := by
  simp only [jdiv, if_pos rfl]
  split_ifs <;> simp [jmul]

/-- Claim C3 (counterexample): `createGridOfPoints(1, 1, 800, 600)` does not
fail with an error; it returns the single degenerate point `(NaN, NaN)`
(from `0 * Infinity`). -/
theorem C3_counterexample :
    createGridOfPoints 1 1 800 600 = [(JSNum.nan, JSNum.nan)] := by
  unfold createGridOfPoints
  rw [show List.range 1 = [0] from rfl]
  simp only [List.flatMap_cons, List.flatMap_nil, List.append_nil, List.map_cons,
    List.map_nil]
  rw [show (((1 : ℕ) : ℚ) - 1) = 0 by norm_num, Nat.cast_zero,
    jmul_zero_jdiv_zero, jmul_zero_jdiv_zero]
  rfl

/-- Claim C3 (amended): `createGridOfPoints` performs no validation and
never raises.  With `cols = 1` it returns `rows` points whose x-coordinate
is `NaN` (from `j * ((width - 2*margin) / 0)`, i.e. `0 * ±Infinity` or
`0 * NaN`), and symmetrically with `rows = 1` every y-coordinate is `NaN`:
a degenerate result rather than an `InvalidArgument` error. -/
theorem C3_amended (rows cols : ℕ) (width height : ℚ) :
    ((createGridOfPoints rows 1 width height).map Prod.fst =
        List.replicate rows JSNum.nan ∧
      (createGridOfPoints rows 1 width height).length = rows) ∧
    ((createGridOfPoints 1 cols width height).map Prod.snd =
        List.replicate cols JSNum.nan ∧
      (createGridOfPoints 1 cols width height).length = cols) := by
  have hnan : ∀ (m q : ℚ),
      jadd (JSNum.fin m)
        (jmul (JSNum.fin ((0 : ℕ) : ℚ))
          (jdiv (JSNum.fin q) (JSNum.fin (((1 : ℕ) : ℚ) - 1)))) =
        JSNum.nan := by
    intro m q
    rw [show (((1 : ℕ) : ℚ) - 1) = 0 by norm_num, Nat.cast_zero, jmul_zero_jdiv_zero]
    rfl
  constructor
  · unfold createGridOfPoints
    rw [show List.range 1 = [0] from rfl]
    simp only [List.map_cons, List.map_nil]
    rw [flatMap_singleton_map]
    constructor
    · rw [List.map_map, List.eq_replicate_iff]
      refine ⟨by simp, ?_⟩
      intro b hb
      simp only [List.mem_map, Function.comp] at hb
      obtain ⟨i, _, hbi⟩ := hb
      rw [← hbi, hnan]
    · simp
  · unfold createGridOfPoints
    rw [show List.range 1 = [0] from rfl]
    simp only [List.flatMap_cons, List.flatMap_nil, List.append_nil]
    constructor
    · rw [List.map_map, List.eq_replicate_iff]
      refine ⟨by simp, ?_⟩
      intro b hb
      simp only [List.mem_map, Function.comp] at hb
      obtain ⟨i, _, hbi⟩ := hb
      rw [← hbi]
      exact hnan _ _
    · simp

/-! ## The regular polygon generator -/

/-- Claim C9 (amended): for `sides = n ≥ 1` and radius `r ≥ 0`,
`createRegularPolygon` returns exactly `n` points, each at euclidean
distance `r` from the canvas center `(width/2, height/2)`, placed at the
angles `-π/2 + i·(2π/n)` (so consecutive points subtend `2π/n` at the
center), the first one at the top of the circle.  (The claim as frozen
quantifies over every radius; for negative `r` the distance is `|r| ≠ r`,
see the counterexample.) -/
theorem C9_amended (n : ℕ) (r width height : ℝ) (hn : 1 ≤ n) (hr : 0 ≤ r) :
    (createRegularPolygon n r width height).length = n ∧
      (∀ p ∈ createRegularPolygon n r width height,
          calculateDistance p.1 p.2 (width / 2) (height / 2) ("euclidean") 2 width height = r) ∧
        (createRegularPolygon n r width height).headD (0, 0) =
            (width / 2, height / 2 - r) ∧
          ∀ i < n, ∃ hi : i < (createRegularPolygon n r width height).length,
            (createRegularPolygon n r width height).get ⟨i, hi⟩ =
              (width / 2 + r * Real.cos (-(Real.pi / 2) + (i : ℝ) * (2 * Real.pi / (n : ℝ))),
               height / 2 + r * Real.sin (-(Real.pi / 2) + (i : ℝ) * (2 * Real.pi / (n : ℝ)))) := by
  refine ⟨by simp [createRegularPolygon], ?_, ?_, ?_⟩
  · intro p hp
    simp only [createRegularPolygon, List.mem_map, List.mem_range] at hp
    obtain ⟨i, hi, rfl⟩ := hp
    rw [calculateDistance_euclidean, jpow_two, jpow_two]
    rw [show width / 2 + r * Real.cos (-(Real.pi / 2) + (i : ℝ) * (2 * Real.pi / (n : ℝ))) -
          width / 2 = r * Real.cos (-(Real.pi / 2) + (i : ℝ) * (2 * Real.pi / (n : ℝ)))
        by ring,
      show height / 2 + r * Real.sin (-(Real.pi / 2) + (i : ℝ) * (2 * Real.pi / (n : ℝ))) -
          height / 2 = r * Real.sin (-(Real.pi / 2) + (i : ℝ) * (2 * Real.pi / (n : ℝ)))
        by ring]
    rw [show (r * Real.cos (-(Real.pi / 2) + (i : ℝ) * (2 * Real.pi / (n : ℝ)))) ^ 2 +
          (r * Real.sin (-(Real.pi / 2) + (i : ℝ) * (2 * Real.pi / (n : ℝ)))) ^ 2 =
        r ^ 2 * (Real.sin (-(Real.pi / 2) + (i : ℝ) * (2 * Real.pi / (n : ℝ))) ^ 2 +
          Real.cos (-(Real.pi / 2) + (i : ℝ) * (2 * Real.pi / (n : ℝ))) ^ 2) by ring,
      Real.sin_sq_add_cos_sq, mul_one, Real.sqrt_sq hr]
  · obtain ⟨m, rfl⟩ : ∃ m, n = m + 1 := ⟨n - 1, by omega⟩
    simp [createRegularPolygon, List.range_succ_eq_map, Real.cos_neg, Real.sin_neg,
      Real.cos_pi_div_two, Real.sin_pi_div_two]
    ring
  · intro i hi
    refine ⟨by simpa [createRegularPolygon] using hi, ?_⟩
    simp [createRegularPolygon]

/-- Claim C9 (counterexample): with radius `-1` the (single) generated
point lies at euclidean distance `1` from the canvas center, not `-1`:
the claim fails for negative radii. -/
theorem C9_counterexample :
    (createRegularPolygon 1 (-1) 800 600).map
        (fun pnt => calculateDistance pnt.1 pnt.2 400 300 ("euclidean") 2 800 600) =
        [1] ∧
      ((1 : ℝ) ≠ -1) := by
  constructor
  · rw [show createRegularPolygon 1 (-1) 800 600 =
        [(800 / 2 + (-1) * Real.cos (-(Real.pi / 2) + ((0 : ℕ) : ℝ) * (2 * Real.pi / ((1 : ℕ) : ℝ))),
          600 / 2 + (-1) * Real.sin (-(Real.pi / 2) + ((0 : ℕ) : ℝ) * (2 * Real.pi / ((1 : ℕ) : ℝ))))]
        from rfl]
    rw [show (-(Real.pi / 2) + ((0 : ℕ) : ℝ) * (2 * Real.pi / ((1 : ℕ) : ℝ))) = -(Real.pi / 2)
        by push_cast; ring]
    rw [Real.cos_neg, Real.sin_neg, Real.cos_pi_div_two, Real.sin_pi_div_two]
    simp only [List.map_cons, List.map_nil]
    rw [calculateDistance_euclidean, jpow_two, jpow_two]
    norm_num
  · norm_num

theorem C9_witness :
    ((1 : ℕ) ≤ 4 ∧ (0 : ℝ) ≤ 100) ∧
      (createRegularPolygon 4 100 800 600).length = 4 ∧
        (createRegularPolygon 4 100 800 600).headD (0, 0) = (400, 200) := by
  refine ⟨⟨by norm_num, by norm_num⟩,
    (C9_amended 4 100 800 600 (by norm_num) (by norm_num)).1, ?_⟩
  rw [(C9_amended 4 100 800 600 (by norm_num) (by norm_num)).2.2.1]
  norm_num

/-! ## The first-order classifier keeps the first strict minimum -/

theorem distPairsFrom_index_le (metric : String) (pValue x y : ℝ) :
    ∀ (l : List (ℝ × ℝ)) (i : ℕ), ∀ q ∈ distPairsFrom metric pValue x y i l, i ≤ q.1
  | [], i => by simp [distPairsFrom]
  | pt :: rest, i => by
    intro q hq
    rw [distPairsFrom] at hq
    rcases List.mem_cons.mp hq with rfl | h
    · exact le_refl i
    · exact le_trans (Nat.le_succ i) (distPairsFrom_index_le metric pValue x y rest (i + 1) q h)

theorem distPairsFrom_pairwise (metric : String) (pValue x y : ℝ) :
    ∀ (l : List (ℝ × ℝ)) (i : ℕ),
      (distPairsFrom metric pValue x y i l).Pairwise (fun a b => a.1 < b.1)
  | [], i => by simp [distPairsFrom]
  | pt :: rest, i => by
    rw [distPairsFrom]
    refine List.pairwise_cons.mpr ⟨?_, distPairsFrom_pairwise metric pValue x y rest (i + 1)⟩
    intro q hq
    exact lt_of_lt_of_le (Nat.lt_succ_self i)
      (distPairsFrom_index_le metric pValue x y rest (i + 1) q hq)

theorem distPairsFrom_length (metric : String) (pValue x y : ℝ) :
    ∀ (l : List (ℝ × ℝ)) (i : ℕ), (distPairsFrom metric pValue x y i l).length = l.length
  | [], i => by simp [distPairsFrom]
  | pt :: rest, i => by
    rw [distPairsFrom, List.length_cons, List.length_cons,
      distPairsFrom_length metric pValue x y rest (i + 1)]

/-- The invariant of the `forEach` scan: starting from state `(j, m)` and
scanning pairs whose indices all exceed `j` (and are strictly increasing),
the final state is the first pair attaining the minimum distance. -/
theorem scanMin_go :
    ∀ (l : List (ℕ × ℝ)) (j : ℕ) (m : ℝ),
      (∀ q ∈ l, j < q.1) → l.Pairwise (fun a b => a.1 < b.1) →
      ∃ j2 m2, scanMin (some (j, m)) l = some (j2, m2) ∧
        ((j2 = j ∧ m2 = m) ∨ (j2, m2) ∈ l) ∧
        m2 ≤ m ∧ (∀ q ∈ l, m2 ≤ q.2) ∧
        (m2 = m → j2 = j) ∧ (∀ q ∈ l, q.2 = m2 → j2 ≤ q.1)
  | [], j, m, _, _ =>
    ⟨j, m, rfl, Or.inl ⟨rfl, rfl⟩, le_refl m, by simp, fun _ => rfl, by simp⟩
  | (i, d) :: rest, j, m, hidx, hpw => by
    have hji : j < i := hidx (i, d) (List.mem_cons_self _ _)
    have hpw' := List.pairwise_cons.mp hpw
    by_cases hd : d < m
    · rw [show scanMin (some (j, m)) ((i, d) :: rest) =
          scanMin (if d < m then some (i, d) else some (j, m)) rest from rfl, if_pos hd]
      obtain ⟨j2, m2, heq, hmem, hle, hall, htie0, htie⟩ :=
        scanMin_go rest i d hpw'.1 hpw'.2
      refine ⟨j2, m2, heq, ?_, le_trans hle (le_of_lt hd), ?_, ?_, ?_⟩
      · rcases hmem with ⟨h1, h2⟩ | hm
        · exact Or.inr (by rw [h1, h2]; exact List.mem_cons_self _ _)
        · exact Or.inr (List.mem_cons_of_mem _ hm)
      · intro q hq
        rcases List.mem_cons.mp hq with rfl | hq2
        · exact hle
        · exact hall q hq2
      · intro h2m
        rw [h2m] at hle
        exact absurd hd (not_lt.mpr hle)
      · intro q hq hq2
        rcases List.mem_cons.mp hq with rfl | hmem2
        · exact le_of_eq (htie0 hq2.symm)
        · exact htie q hmem2 hq2
    · rw [show scanMin (some (j, m)) ((i, d) :: rest) =
          scanMin (if d < m then some (i, d) else some (j, m)) rest from rfl, if_neg hd]
      have hmd : m ≤ d := not_lt.mp hd
      obtain ⟨j2, m2, heq, hmem, hle, hall, htie0, htie⟩ :=
        scanMin_go rest j m (fun q hq => hidx q (List.mem_cons_of_mem _ hq))
          hpw'.2
      refine ⟨j2, m2, heq, ?_, hle, ?_, htie0, ?_⟩
      · rcases hmem with hm | hm
        · exact Or.inl hm
        · exact Or.inr (List.mem_cons_of_mem _ hm)
      · intro q hq
        rcases List.mem_cons.mp hq with rfl | hq2
        · exact le_trans hle hmd
        · exact hall q hq2
      · intro q hq hq2
        rcases List.mem_cons.mp hq with rfl | hq3
        · have hm2 : m2 = m := le_antisymm hle (hq2 ▸ hmd)
          exact le_of_lt (lt_of_le_of_lt (le_of_eq (htie0 hm2)) hji)
        · exact htie q hq3 hq2

/-- Claim C7: for every (non-empty) site list and every sample point, the
first-order classifier picks a site whose distance is minimal over all
sites, and among equal minimal distances the lowest index wins (the scan
keeps the first minimum and replaces only on strictly smaller distance). -/
theorem C7_first_order_nearest (metric : String) (pValue : ℝ)
    (points : List (ℝ × ℝ)) (x y : ℝ) (h : points ≠ []) :
    ∃ j dj, firstOrderPick metric pValue points x y = some (j, dj) ∧
      (j, dj) ∈ distPairs metric pValue x y points ∧
      (∀ q ∈ distPairs metric pValue x y points, dj ≤ q.2) ∧
      (∀ q ∈ distPairs metric pValue x y points, q.2 = dj → j ≤ q.1) := by
  obtain ⟨pt, rest, rfl⟩ : ∃ pt rest, points = pt :: rest := by
    cases points with
    | nil => exact absurd rfl h
    | cons a l => exact ⟨a, l, rfl⟩
  rw [firstOrderPick, distPairs, distPairsFrom]
  rw [show scanMin none ((0, ymlCalculateDistance metric pValue pt.1 pt.2 x y) ::
        distPairsFrom metric pValue x y (0 + 1) rest) =
      scanMin (some (0, ymlCalculateDistance metric pValue pt.1 pt.2 x y))
        (distPairsFrom metric pValue x y (0 + 1) rest) from rfl]
  obtain ⟨j2, m2, heq, hmem, hle, hall, htie0, htie⟩ :=
    scanMin_go (distPairsFrom metric pValue x y (0 + 1) rest) 0
      (ymlCalculateDistance metric pValue pt.1 pt.2 x y)
      (fun q hq => lt_of_lt_of_le Nat.zero_lt_one
        (distPairsFrom_index_le metric pValue x y rest (0 + 1) q hq))
      (distPairsFrom_pairwise metric pValue x y rest (0 + 1))
  refine ⟨j2, m2, heq, ?_, ?_, ?_⟩
  · rcases hmem with ⟨h1, h2⟩ | hm
    · rw [h1, h2]; exact List.mem_cons_self _ _
    · exact List.mem_cons_of_mem _ hm
  · intro q hq
    rcases List.mem_cons.mp hq with rfl | hq2
    · exact hle
    · exact hall q hq2
  · intro q hq hq2
    rcases List.mem_cons.mp hq with rfl | hq3
    · exact le_of_eq (htie0 hq2.symm)
    · exact htie q hq3 hq2

theorem C7_witness :
    ([((1 : ℝ), (1 : ℝ)), ((2 : ℝ), (2 : ℝ))] : List (ℝ × ℝ)) ≠ [] ∧
      ∃ j dj,
        firstOrderPick ("manhattan") 2 [((1 : ℝ), (1 : ℝ)), ((2 : ℝ), (2 : ℝ))] 0 0 =
            some (j, dj) ∧
          (j, dj) ∈ distPairs ("manhattan") 2 0 0 [((1 : ℝ), (1 : ℝ)), ((2 : ℝ), (2 : ℝ))] ∧
          (∀ q ∈ distPairs ("manhattan") 2 0 0 [((1 : ℝ), (1 : ℝ)), ((2 : ℝ), (2 : ℝ))],
              dj ≤ q.2) ∧
          (∀ q ∈ distPairs ("manhattan") 2 0 0 [((1 : ℝ), (1 : ℝ)), ((2 : ℝ), (2 : ℝ))],
              q.2 = dj → j ≤ q.1) :=
  ⟨by simp, C7_first_order_nearest ("manhattan") 2
    [((1 : ℝ), (1 : ℝ)), ((2 : ℝ), (2 : ℝ))] 0 0 (by simp)⟩

/-! ## The higher-order key: stable distance sort, string-sorted subset -/

theorem orderedInsert_tie (x : ℕ × ℝ) :
    ∀ l : List (ℕ × ℝ), (∀ q ∈ l, x.1 < q.1) →
      l.Pairwise (fun a b => a.2 = b.2 → a.1 < b.1) →
      (List.orderedInsert (fun a b : ℕ × ℝ => a.2 ≤ b.2) x l).Pairwise
        (fun a b => a.2 = b.2 → a.1 < b.1)
  | [], _, _ => by simp
  | y :: ys, hx, hl => by
    rw [List.orderedInsert]
    have hl' := List.pairwise_cons.mp hl
    by_cases hxy : x.2 ≤ y.2
    · rw [if_pos hxy]
      refine List.pairwise_cons.mpr ⟨?_, hl⟩
      intro q hq _
      exact hx q hq
    · rw [if_neg hxy]
      have hyx : y.2 < x.2 := not_le.mp hxy
      refine List.pairwise_cons.mpr
        ⟨?_, orderedInsert_tie x ys (fun q hq => hx q (List.mem_cons_of_mem _ hq)) hl'.2⟩
      intro q hq
      rcases (List.mem_orderedInsert _).mp hq with rfl | hq2
      · intro he
        exact absurd he (ne_of_lt hyx)
      · exact hl'.1 q hq2

theorem insertionSort_tie :
    ∀ l : List (ℕ × ℝ), l.Pairwise (fun a b => a.1 < b.1) →
      (List.insertionSort (fun a b : ℕ × ℝ => a.2 ≤ b.2) l).Pairwise
        (fun a b => a.2 = b.2 → a.1 < b.1)
  | [], _ => by simp
  | x :: xs, hl => by
    rw [List.insertionSort]
    have hl' := List.pairwise_cons.mp hl
    exact orderedInsert_tie x _
      (fun q hq => hl'.1 q ((List.mem_insertionSort _).mp hq))
      (insertionSort_tie xs hl'.2)

theorem sortedDistances_sorted (metric : String) (pValue x y : ℝ)
    (points : List (ℝ × ℝ)) :
    (sortedDistances metric pValue x y points).Pairwise (fun a b : ℕ × ℝ => a.2 ≤ b.2) := by
  haveI : IsTotal (ℕ × ℝ) (fun a b => a.2 ≤ b.2) := ⟨fun a b => le_total a.2 b.2⟩
  haveI : IsTrans (ℕ × ℝ) (fun a b => a.2 ≤ b.2) := ⟨fun a b c h1 h2 => le_trans h1 h2⟩
  exact List.sorted_insertionSort _ _

/-- Claim C2 (amended): the higher-order classifier sorts the
(site-index, distance) pairs by a stable sort keyed on distance alone
(it is a permutation, sorted by distance, and pairs with equal distance
keep their original index order), takes the first `k` site indices, sorts
that subset by the **decimal-string order of the JS default `sort()`**
(not numeric order — see the counterexample), and hyphen-joins it; the key
always names exactly `k` site indices. -/
theorem C2_amended (metric : String) (pValue x y : ℝ) (points : List (ℝ × ℝ)) (k : ℕ)
    (h3 : 3 ≤ points.length) (hk1 : 1 < k) (hk2 : k ≤ points.length - 1) :
    List.Perm (sortedDistances metric pValue x y points)
        (distPairs metric pValue x y points) ∧
      (sortedDistances metric pValue x y points).Pairwise (fun a b => a.2 ≤ b.2) ∧
        (sortedDistances metric pValue x y points).Pairwise
            (fun a b => a.2 = b.2 → a.1 < b.1) ∧
          (higherOrderKeyIndices metric pValue x y points k).length = k ∧
            higherOrderKey metric pValue x y points k =
              String.intercalate ("-")
                ((higherOrderKeyIndices metric pValue x y points k).map Nat.repr) := by
  refine ⟨List.perm_insertionSort _ _, sortedDistances_sorted metric pValue x y points,
    insertionSort_tie _ (distPairsFrom_pairwise metric pValue x y points 0), ?_, rfl⟩
  rw [higherOrderKeyIndices, List.length_insertionSort, List.length_map, List.length_take,
    sortedDistances, List.length_insertionSort, distPairs,
    distPairsFrom_length metric pValue x y points 0]
  omega

theorem C2_witness :
    ((3 : ℕ) ≤ ([((0 : ℝ), (0 : ℝ)), ((1 : ℝ), (0 : ℝ)), ((2 : ℝ), (0 : ℝ))] :
          List (ℝ × ℝ)).length ∧
        (1 : ℕ) < 2 ∧
        (2 : ℕ) ≤ ([((0 : ℝ), (0 : ℝ)), ((1 : ℝ), (0 : ℝ)), ((2 : ℝ), (0 : ℝ))] :
          List (ℝ × ℝ)).length - 1) ∧
      (higherOrderKeyIndices ("manhattan") 2 0 0
          [((0 : ℝ), (0 : ℝ)), ((1 : ℝ), (0 : ℝ)), ((2 : ℝ), (0 : ℝ))] 2).length = 2 :=
  ⟨⟨by simp, by norm_num, by simp⟩,
    (C2_amended ("manhattan") 2 0 0
      [((0 : ℝ), (0 : ℝ)), ((1 : ℝ), (0 : ℝ)), ((2 : ℝ), (0 : ℝ))] 2
      (by simp) (by norm_num) (by simp)).2.2.2.1⟩

/-- Claim C2 (counterexample): with 11 sites the JS default `sort()` on the
index subset compares decimal strings, so the two nearest sites `10` and
`2` produce the key `"10-2"`, not the numerically sorted `"2-10"` the claim
demands. -/
theorem C2_counterexample :
    higherOrderKey ("manhattan") 2 0 0
        [((10 : ℝ), 0), (11, 0), (2, 0), (13, 0), (14, 0), (15, 0), (16, 0), (17, 0),
          (18, 0), (19, 0), (1, 0)] 2 = "10-2" ∧
      specNumericKey ("manhattan") 2 0 0
          [((10 : ℝ), 0), (11, 0), (2, 0), (13, 0), (14, 0), (15, 0), (16, 0), (17, 0),
            (18, 0), (19, 0), (1, 0)] 2 = "2-10" ∧
        ("10-2" : String) ≠ "2-10" := by
  have hd : distPairs ("manhattan") 2 0 0
      [((10 : ℝ), 0), (11, 0), (2, 0), (13, 0), (14, 0), (15, 0), (16, 0), (17, 0),
        (18, 0), (19, 0), (1, 0)] =
      [(0, 10), (1, 11), (2, 2), (3, 13), (4, 14), (5, 15), (6, 16), (7, 17), (8, 18),
        (9, 19), (10, 1)] := by
    norm_num [distPairs, distPairsFrom, ymlCalculateDistance]
  have hs : sortedDistances ("manhattan") 2 0 0
      [((10 : ℝ), 0), (11, 0), (2, 0), (13, 0), (14, 0), (15, 0), (16, 0), (17, 0),
        (18, 0), (19, 0), (1, 0)] =
      [(10, 1), (2, 2), (0, 10), (1, 11), (3, 13), (4, 14), (5, 15), (6, 16), (7, 17),
        (8, 18), (9, 19)] := by
    rw [sortedDistances, hd]
    norm_num [List.insertionSort, List.orderedInsert]
  have hstr : jsStrSortLe 10 2 := by decide
  have hki : higherOrderKeyIndices ("manhattan") 2 0 0
      [((10 : ℝ), 0), (11, 0), (2, 0), (13, 0), (14, 0), (15, 0), (16, 0), (17, 0),
        (18, 0), (19, 0), (1, 0)] 2 = [10, 2] := by
    rw [higherOrderKeyIndices, hs]
    norm_num [List.insertionSort, List.orderedInsert, hstr]
  refine ⟨?_, ?_, by decide⟩
  · rw [higherOrderKey, hki]
    rfl
  · rw [specNumericKey, hs]
    norm_num [List.insertionSort, List.orderedInsert]
    rfl

/-! ## Generic facts about the projection sort -/

theorem getLastD_mem {α : Type} : ∀ (l : List α) (d : α), l ≠ [] → l.getLastD d ∈ l
  | [], _, h => absurd rfl h
  | [x], d, _ => by
    rw [List.getLastD_cons]
    exact List.mem_singleton.mpr rfl
  | x :: y :: t, d, _ => by
    rw [List.getLastD_cons]
    exact List.mem_cons_of_mem _ (getLastD_mem (y :: t) x (by simp))

theorem sorted_rel_getLastD {α : Type} {r : α → α → Prop} (hrefl : ∀ a, r a a) :
    ∀ (l : List α) (d : α), List.Pairwise r l → ∀ a ∈ l, r a (l.getLastD d)
  | [], _, _, a, ha => absurd ha (List.not_mem_nil a)
  | [x], d, _, a, ha => by
    rw [List.mem_singleton] at ha
    subst ha
    rw [List.getLastD_cons]
    exact hrefl a
  | x :: y :: t, d, hp, a, ha => by
    rw [List.getLastD_cons]
    have hp' := List.pairwise_cons.mp hp
    rcases List.mem_cons.mp ha with rfl | ha2
    · exact hp'.1 _ (getLastD_mem (y :: t) a (by simp))
    · exact sorted_rel_getLastD hrefl (y :: t) x hp'.2 a ha2

theorem sorted_key_head {α : Type} (key : α → ℝ) (l : List α) (hl : l ≠ []) (d : α) :
    (List.insertionSort (fun a b => key a ≤ key b) l).headD d ∈ l ∧
      ∀ a ∈ l, key ((List.insertionSort (fun a b => key a ≤ key b) l).headD d) ≤ key a := by
  haveI : IsTotal α (fun a b => key a ≤ key b) := ⟨fun a b => le_total (key a) (key b)⟩
  haveI : IsTrans α (fun a b => key a ≤ key b) := ⟨fun a b c h1 h2 => le_trans h1 h2⟩
  have hperm := List.perm_insertionSort (fun a b => key a ≤ key b) l
  have hsorted := List.sorted_insertionSort (fun a b => key a ≤ key b) l
  have hne : List.insertionSort (fun a b => key a ≤ key b) l ≠ [] := by
    intro hcon
    rw [hcon] at hperm
    exact hl (List.Perm.nil_eq hperm).symm
  obtain ⟨hd0, tl0, hcons⟩ := List.exists_cons_of_ne_nil hne
  constructor
  · rw [hcons, List.headD_cons]
    exact hperm.subset (hcons ▸ List.mem_cons_self hd0 tl0)
  · intro a ha
    have ha' : a ∈ hd0 :: tl0 := hcons ▸ (hperm.mem_iff.mpr ha)
    rw [hcons, List.headD_cons]
    rcases List.mem_cons.mp ha' with rfl | ha2
    · exact le_refl _
    · exact List.rel_of_sorted_cons (hcons ▸ hsorted) a ha2

theorem sorted_key_last {α : Type} (key : α → ℝ) (l : List α) (hl : l ≠ []) (d : α) :
    (List.insertionSort (fun a b => key a ≤ key b) l).getLastD d ∈ l ∧
      ∀ a ∈ l, key a ≤ key ((List.insertionSort (fun a b => key a ≤ key b) l).getLastD d) := by
  haveI : IsTotal α (fun a b => key a ≤ key b) := ⟨fun a b => le_total (key a) (key b)⟩
  haveI : IsTrans α (fun a b => key a ≤ key b) := ⟨fun a b c h1 h2 => le_trans h1 h2⟩
  have hperm := List.perm_insertionSort (fun a b => key a ≤ key b) l
  have hsorted := List.sorted_insertionSort (fun a b => key a ≤ key b) l
  have hne : List.insertionSort (fun a b => key a ≤ key b) l ≠ [] := by
    intro hcon
    rw [hcon] at hperm
    exact hl (List.Perm.nil_eq hperm).symm
  constructor
  · exact hperm.subset (getLastD_mem _ d hne)
  · intro a ha
    exact sorted_rel_getLastD (fun z => le_refl (key z)) _ d hsorted a
      (hperm.mem_iff.mpr ha)

/-! ## Symmetry structure of the hilbert branch -/

theorem jsOr_of_ne {a : ℝ} (b : ℝ) (h : a ≠ 0) : jsOr a b = a := if_neg h

theorem hilbertM_eq (nx1 ny1 nx2 ny2 : ℝ) (hne : nx1 ≠ nx2) :
    hilbertM nx1 ny1 nx2 ny2 = (ny2 - ny1) / (nx2 - nx1) := by
  rw [hilbertM, jsOr_of_ne _ (sub_ne_zero.mpr (Ne.symm hne))]

theorem hilbertM_symm (nx1 ny1 nx2 ny2 : ℝ) (hne : nx1 ≠ nx2) :
    hilbertM nx2 ny2 nx1 ny1 = hilbertM nx1 ny1 nx2 ny2 := by
  rw [hilbertM_eq nx2 ny2 nx1 ny1 (Ne.symm hne), hilbertM_eq nx1 ny1 nx2 ny2 hne,
    show ny1 - ny2 = -(ny2 - ny1) by ring, show nx1 - nx2 = -(nx2 - nx1) by ring,
    neg_div_neg_eq]

theorem hilbertB_symm (nx1 ny1 nx2 ny2 : ℝ) (hne : nx1 ≠ nx2) :
    hilbertB nx2 ny2 nx1 ny1 = hilbertB nx1 ny1 nx2 ny2 := by
  rw [hilbertB, hilbertB, hilbertM_symm nx1 ny1 nx2 ny2 hne, hilbertM_eq nx1 ny1 nx2 ny2 hne]
  have h : nx2 - nx1 ≠ 0 := sub_ne_zero.mpr (Ne.symm hne)
  field_simp
  ring

theorem hilbertInters_symm (nx1 ny1 nx2 ny2 : ℝ) (hne : nx1 ≠ nx2) :
    hilbertInters nx2 ny2 nx1 ny1 = hilbertInters nx1 ny1 nx2 ny2 := by
  rw [hilbertInters, hilbertInters, hilbertM_symm nx1 ny1 nx2 ny2 hne,
    hilbertB_symm nx1 ny1 nx2 ny2 hne]

theorem mem_hilbertIntersections (m b : ℝ) :
    ∀ a ∈ hilbertIntersections m b, a.2 = m * a.1 + b := by
  intro a ha
  rw [hilbertIntersections] at ha
  simp only [List.mem_append] at ha
  have hm0 : 0.000001 < |m| → m ≠ 0 := by
    intro hg h0
    rw [h0] at hg
    norm_num at hg
  rcases ha with ((h | h) | h) | h
  · by_cases hc : 0 ≤ b ∧ b ≤ 1
    · rw [if_pos hc, List.mem_singleton] at h
      subst h
      simp
    · rw [if_neg hc] at h
      exact absurd h (List.not_mem_nil a)
  · by_cases hc : 0 ≤ m + b ∧ m + b ≤ 1
    · rw [if_pos hc, List.mem_singleton] at h
      subst h
      simp
    · rw [if_neg hc] at h
      exact absurd h (List.not_mem_nil a)
  · by_cases hg : 0.000001 < |m|
    · rw [if_pos hg] at h
      by_cases hc : 0 ≤ -b / m ∧ -b / m ≤ 1
      · rw [if_pos hc, List.mem_singleton] at h
        subst h
        have hm : m ≠ 0 := hm0 hg
        show (0 : ℝ) = m * (-b / m) + b
        field_simp
        ring
      · rw [if_neg hc] at h
        exact absurd h (List.not_mem_nil a)
    · rw [if_neg hg] at h
      exact absurd h (List.not_mem_nil a)
  · by_cases hg : 0.000001 < |m|
    · rw [if_pos hg] at h
      by_cases hc : 0 ≤ (1 - b) / m ∧ (1 - b) / m ≤ 1
      · rw [if_pos hc, List.mem_singleton] at h
        subst h
        have hm : m ≠ 0 := hm0 hg
        show (1 : ℝ) = m * ((1 - b) / m) + b
        field_simp
      · rw [if_neg hc] at h
        exact absurd h (List.not_mem_nil a)
    · rw [if_neg hg] at h
      exact absurd h (List.not_mem_nil a)

theorem hilbertLineDist_symm (nx1 ny1 nx2 ny2 : ℝ) :
    hilbertLineDist nx2 ny2 nx1 ny1 = hilbertLineDist nx1 ny1 nx2 ny2 := by
  rw [hilbertLineDist, hilbertLineDist]
  congr 1
  ring

theorem hilbertLineDist_pos (nx1 ny1 nx2 ny2 : ℝ) (hne : nx1 ≠ nx2) :
    0 < hilbertLineDist nx1 ny1 nx2 ny2 := by
  rw [hilbertLineDist]
  apply Real.sqrt_pos.mpr
  have h : nx2 - nx1 ≠ 0 := sub_ne_zero.mpr (Ne.symm hne)
  nlinarith [mul_self_pos.mpr h, mul_self_nonneg (ny2 - ny1)]

theorem hilbertLineDist_sq (nx1 ny1 nx2 ny2 : ℝ) :
    hilbertLineDist nx1 ny1 nx2 ny2 * hilbertLineDist nx1 ny1 nx2 ny2 =
      (nx2 - nx1) * (nx2 - nx1) + (ny2 - ny1) * (ny2 - ny1) := by
  rw [hilbertLineDist]
  exact Real.mul_self_sqrt
    (by nlinarith [mul_self_nonneg (nx2 - nx1), mul_self_nonneg (ny2 - ny1)])

theorem hilbertProj_frac (nx1 ny1 nx2 ny2 : ℝ) (a : ℝ × ℝ) :
    hilbertProj nx1 ny1 nx2 ny2 a =
      ((a.1 - nx1) * (nx2 - nx1) + (a.2 - ny1) * (ny2 - ny1)) /
        hilbertLineDist nx1 ny1 nx2 ny2 := by
  rw [hilbertProj, hilbertDirX, hilbertDirY]
  ring

theorem hilbertProj_rev (nx1 ny1 nx2 ny2 : ℝ) (hne : nx1 ≠ nx2) (a : ℝ × ℝ) :
    hilbertProj nx2 ny2 nx1 ny1 a =
      hilbertLineDist nx1 ny1 nx2 ny2 - hilbertProj nx1 ny1 nx2 ny2 a := by
  have hL := (hilbertLineDist_pos nx1 ny1 nx2 ny2 hne).ne'
  have hsq := hilbertLineDist_sq nx1 ny1 nx2 ny2
  rw [hilbertProj_frac, hilbertProj_frac, hilbertLineDist_symm]
  field_simp
  linear_combination -hsq

theorem hilbertProj_line (nx1 ny1 nx2 ny2 : ℝ) (hne : nx1 ≠ nx2) (a : ℝ × ℝ)
    (ha : a.2 = hilbertM nx1 ny1 nx2 ny2 * a.1 + hilbertB nx1 ny1 nx2 ny2) :
    hilbertProj nx1 ny1 nx2 ny2 a =
      (a.1 - nx1) * (hilbertLineDist nx1 ny1 nx2 ny2 / (nx2 - nx1)) := by
  have hd : nx2 - nx1 ≠ 0 := sub_ne_zero.mpr (Ne.symm hne)
  have hL := (hilbertLineDist_pos nx1 ny1 nx2 ny2 hne).ne'
  have hsq := hilbertLineDist_sq nx1 ny1 nx2 ny2
  have ha2 : (a.2 - ny1) * (nx2 - nx1) = (ny2 - ny1) * (a.1 - nx1) := by
    rw [hilbertB, hilbertM_eq nx1 ny1 nx2 ny2 hne] at ha
    rw [ha]
    field_simp
    ring
  rw [hilbertProj_frac, ← mul_div_assoc, div_eq_div_iff hL hd]
  linear_combination (ny2 - ny1) * ha2 - (a.1 - nx1) * hsq

theorem hilbertProj_inj (nx1 ny1 nx2 ny2 : ℝ) (hne : nx1 ≠ nx2) (a c : ℝ × ℝ)
    (ha : a.2 = hilbertM nx1 ny1 nx2 ny2 * a.1 + hilbertB nx1 ny1 nx2 ny2)
    (hc : c.2 = hilbertM nx1 ny1 nx2 ny2 * c.1 + hilbertB nx1 ny1 nx2 ny2)
    (hp : hilbertProj nx1 ny1 nx2 ny2 a = hilbertProj nx1 ny1 nx2 ny2 c) : a = c := by
  have hd : nx2 - nx1 ≠ 0 := sub_ne_zero.mpr (Ne.symm hne)
  have hL := (hilbertLineDist_pos nx1 ny1 nx2 ny2 hne).ne'
  rw [hilbertProj_line nx1 ny1 nx2 ny2 hne a ha,
    hilbertProj_line nx1 ny1 nx2 ny2 hne c hc] at hp
  have hk : hilbertLineDist nx1 ny1 nx2 ny2 / (nx2 - nx1) ≠ 0 := div_ne_zero hL hd
  have h1 : a.1 = c.1 := by
    have h := mul_right_cancel₀ hk hp
    linarith [h]
  have h2 : a.2 = c.2 := by rw [ha, hc, h1]
  exact Prod.ext h1 h2

theorem hilbertBnd_swap (nx1 ny1 nx2 ny2 : ℝ) (hne : nx1 ≠ nx2) :
    hilbertBnd1 nx2 ny2 nx1 ny1 = hilbertBnd2 nx1 ny1 nx2 ny2 ∧
      hilbertBnd2 nx2 ny2 nx1 ny1 = hilbertBnd1 nx1 ny1 nx2 ny2 := by
  by_cases hnil : hilbertInters nx1 ny1 nx2 ny2 = []
  · constructor
    · rw [hilbertBnd1, hilbertBnd2, hilbertSorted, hilbertSorted,
        hilbertInters_symm nx1 ny1 nx2 ny2 hne, hnil]
      rfl
    · rw [hilbertBnd2, hilbertBnd1, hilbertSorted, hilbertSorted,
        hilbertInters_symm nx1 ny1 nx2 ny2 hne, hnil]
      rfl
  · have hline : ∀ a ∈ hilbertInters nx1 ny1 nx2 ny2,
        a.2 = hilbertM nx1 ny1 nx2 ny2 * a.1 + hilbertB nx1 ny1 nx2 ny2 :=
      mem_hilbertIntersections _ _
    have hhead := sorted_key_head (hilbertProj nx1 ny1 nx2 ny2)
      (hilbertInters nx1 ny1 nx2 ny2) hnil ((0 : ℝ), (0 : ℝ))
    have hlast := sorted_key_last (hilbertProj nx1 ny1 nx2 ny2)
      (hilbertInters nx1 ny1 nx2 ny2) hnil ((0 : ℝ), (0 : ℝ))
    have hhead' := sorted_key_head (hilbertProj nx2 ny2 nx1 ny1)
      (hilbertInters nx1 ny1 nx2 ny2) hnil ((0 : ℝ), (0 : ℝ))
    have hlast' := sorted_key_last (hilbertProj nx2 ny2 nx1 ny1)
      (hilbertInters nx1 ny1 nx2 ny2) hnil ((0 : ℝ), (0 : ℝ))
    have hrw : hilbertSorted nx2 ny2 nx1 ny1 =
        List.insertionSort
          (fun a b => hilbertProj nx2 ny2 nx1 ny1 a ≤ hilbertProj nx2 ny2 nx1 ny1 b)
          (hilbertInters nx1 ny1 nx2 ny2) := by
      rw [hilbertSorted, hilbertInters_symm nx1 ny1 nx2 ny2 hne]
    constructor
    · rw [hilbertBnd1, hrw, hilbertBnd2]
      apply hilbertProj_inj nx1 ny1 nx2 ny2 hne _ _ (hline _ hhead'.1) (hline _ hlast.1)
      apply le_antisymm
      · exact hlast.2 _ hhead'.1
      · have h := hhead'.2 _ hlast.1
        rw [hilbertProj_rev nx1 ny1 nx2 ny2 hne, hilbertProj_rev nx1 ny1 nx2 ny2 hne] at h
        linarith
    · rw [hilbertBnd2, hrw, hilbertBnd1]
      apply hilbertProj_inj nx1 ny1 nx2 ny2 hne _ _ (hline _ hlast'.1) (hline _ hhead.1)
      apply le_antisymm
      · have h := hlast'.2 _ hhead.1
        rw [hilbertProj_rev nx1 ny1 nx2 ny2 hne, hilbertProj_rev nx1 ny1 nx2 ny2 hne] at h
        linarith
      · exact hhead.2 _ hlast'.1

theorem hilbertD11_rev (nx1 ny1 nx2 ny2 : ℝ) (hne : nx1 ≠ nx2) :
    hilbertD11 nx2 ny2 nx1 ny1 = hilbertD22 nx1 ny1 nx2 ny2 := by
  rw [hilbertD11, hilbertD22, (hilbertBnd_swap nx1 ny1 nx2 ny2 hne).1]

theorem hilbertD12_rev (nx1 ny1 nx2 ny2 : ℝ) (hne : nx1 ≠ nx2) :
    hilbertD12 nx2 ny2 nx1 ny1 = hilbertD21 nx1 ny1 nx2 ny2 := by
  rw [hilbertD12, hilbertD21, (hilbertBnd_swap nx1 ny1 nx2 ny2 hne).2]

theorem hilbertD21_rev (nx1 ny1 nx2 ny2 : ℝ) (hne : nx1 ≠ nx2) :
    hilbertD21 nx2 ny2 nx1 ny1 = hilbertD12 nx1 ny1 nx2 ny2 := by
  rw [hilbertD21, hilbertD12, (hilbertBnd_swap nx1 ny1 nx2 ny2 hne).1]

theorem hilbertD22_rev (nx1 ny1 nx2 ny2 : ℝ) (hne : nx1 ≠ nx2) :
    hilbertD22 nx2 ny2 nx1 ny1 = hilbertD11 nx1 ny1 nx2 ny2 := by
  rw [hilbertD22, hilbertD11, (hilbertBnd_swap nx1 ny1 nx2 ny2 hne).2]

theorem min4_perm (a b c d : ℝ) :
    min (min (min d c) b) a = min (min (min a b) c) d := by
  apply le_antisymm <;> simp [le_min_iff, min_le_iff]

theorem hilbertCross_symm (nx1 ny1 nx2 ny2 width height : ℝ) (hne : nx1 ≠ nx2) :
    hilbertCross nx2 ny2 nx1 ny1 width height =
      hilbertCross nx1 ny1 nx2 ny2 width height := by
  rw [hilbertCross, hilbertCross, hilbertD11_rev nx1 ny1 nx2 ny2 hne,
    hilbertD12_rev nx1 ny1 nx2 ny2 hne, hilbertD21_rev nx1 ny1 nx2 ny2 hne,
    hilbertD22_rev nx1 ny1 nx2 ny2 hne]
  refine if_congr (by tauto) (by rw [min4_perm]) ?_
  rw [mul_comm (hilbertD21 nx1 ny1 nx2 ny2) (hilbertD12 nx1 ny1 nx2 ny2),
    mul_comm (hilbertD11 nx1 ny1 nx2 ny2) (hilbertD22 nx1 ny1 nx2 ny2)]

theorem hilbertBody_symm (nx1 ny1 nx2 ny2 width height : ℝ) (hne : nx1 ≠ nx2) :
    hilbertBody nx2 ny2 nx1 ny1 width height =
      hilbertBody nx1 ny1 nx2 ny2 width height := by
  rw [hilbertBody, hilbertBody, hilbertInters_symm nx1 ny1 nx2 ny2 hne]
  refine if_congr Iff.rfl ?_ (hilbertCross_symm nx1 ny1 nx2 ny2 width height hne)
  simp only [jpow_two]
  rw [show (nx1 - nx2) ^ 2 = (nx2 - nx1) ^ 2 by ring,
    show (ny1 - ny2) ^ 2 = (ny2 - ny1) ^ 2 by ring,
    min_comm (boundaryMin nx2 ny2) (boundaryMin nx1 ny1)]

theorem hilbertDistance_symm (x1 y1 x2 y2 width height : ℝ) (hx : x1 ≠ x2)
    (hw : 0 < width) :
    hilbertDistance x2 y2 x1 y1 width height =
      hilbertDistance x1 y1 x2 y2 width height := by
  rw [hilbertDistance, hilbertDistance,
    if_neg (fun hcon => hx ((And.left hcon).symm)),
    if_neg (fun hcon => hx (And.left hcon))]
  apply hilbertBody_symm
  intro hcon
  apply hx
  field_simp at hcon
  exact hcon

/-- Claim C5 (amended): the hilbert metric is symmetric for all point
pairs whose x-coordinates differ (and trivially for identical points).
When the x-coordinates coincide but the points differ, the
division-by-zero fallback `(nx2 - nx1) || 0.000001` gives the two call
directions different surrogate slopes and symmetry can fail
(see the counterexample). -/
theorem C5_amended (x1 y1 x2 y2 pValue width height : ℝ) (hx : x1 ≠ x2)
    (hw : 0 < width) (hh : 0 < height) :
    calculateDistance x1 y1 x2 y2 ("hilbert") pValue width height =
      calculateDistance x2 y2 x1 y1 ("hilbert") pValue width height := by
  rw [calculateDistance_hilbert, calculateDistance_hilbert]
  exact (hilbertDistance_symm x1 y1 x2 y2 width height hx hw).symm

theorem C5_witness :
    ((100 : ℝ) ≠ 200 ∧ (0 : ℝ) < 800 ∧ (0 : ℝ) < 600) ∧
      calculateDistance 100 100 200 300 ("hilbert") 2 800 600 =
        calculateDistance 200 300 100 100 ("hilbert") 2 800 600 :=
  ⟨⟨by norm_num, by norm_num, by norm_num⟩,
    C5_amended 100 100 200 300 2 800 600 (by norm_num) (by norm_num) (by norm_num)⟩

theorem hilbertD12_nonneg (nx1 ny1 nx2 ny2 : ℝ) : 0 ≤ hilbertD12 nx1 ny1 nx2 ny2 :=
  dist2_nonneg _ _

theorem hilbertD21_nonneg (nx1 ny1 nx2 ny2 : ℝ) : 0 ≤ hilbertD21 nx1 ny1 nx2 ny2 :=
  dist2_nonneg _ _

theorem hilbertD22_nonneg (nx1 ny1 nx2 ny2 : ℝ) : 0 ≤ hilbertD22 nx1 ny1 nx2 ny2 :=
  dist2_nonneg _ _

/-- Claim C1: at the repository's own test input
`calculateDistance(0, 0, 80, 60, 'hilbert', 2, 800, 600)` the code takes
the near-boundary special case (the point `(0,0)` lies on the boundary, so
`D11 = 0 < epsilon`) and returns `100000 / (0 + 0.000001) = 10^11` — not
the value `60` that the repository's unit tests and the specification's
canonical Chebyshev formula demand. -/
theorem C1_hilbert_code_value :
    calculateDistance 0 0 80 60 ("hilbert") 2 800 600 = 100000000000 ∧
      (100000000000 : ℝ) ≠ 60 := by
  refine ⟨?_, by norm_num⟩
  rw [calculateDistance_hilbert, hilbertDistance, if_neg (by norm_num)]
  rw [show (0 : ℝ) / 800 = 0 by norm_num, show (0 : ℝ) / 600 = 0 by norm_num,
    show (80 : ℝ) / 800 = 1 / 10 by norm_num, show (60 : ℝ) / 600 = 1 / 10 by norm_num]
  have h2 : hilbertM 0 0 (1 / 10) (1 / 10) = 1 := by
    rw [hilbertM, jsOr]
    norm_num
  have h3 : hilbertB 0 0 (1 / 10) (1 / 10) = 0 := by
    rw [hilbertB, h2]
    norm_num
  have h4 : hilbertInters 0 0 (1 / 10) (1 / 10) =
      [((0 : ℝ), (0 : ℝ)), (1, 1), (0, 0), (1, 1)] := by
    rw [hilbertInters, h2, h3, hilbertIntersections]
    norm_num
  have hnil : hilbertInters 0 0 (1 / 10) (1 / 10) ≠ [] := by
    rw [h4]
    simp
  have h6 : 0 < hilbertProj 0 0 (1 / 10) (1 / 10) (1, 1) := by
    rw [hilbertProj_frac, hilbertLineDist]
    norm_num
  have h7 : hilbertProj 0 0 (1 / 10) (1 / 10) (0, 0) = 0 := by
    rw [hilbertProj_frac]
    norm_num
  have h8 : hilbertBnd1 0 0 (1 / 10) (1 / 10) = (0, 0) := by
    have hh := sorted_key_head (hilbertProj 0 0 (1 / 10) (1 / 10))
      (hilbertInters 0 0 (1 / 10) (1 / 10)) hnil ((0 : ℝ), (0 : ℝ))
    have hmem : hilbertBnd1 0 0 (1 / 10) (1 / 10) ∈ hilbertInters 0 0 (1 / 10) (1 / 10) :=
      hh.1
    have hmin := hh.2 ((0 : ℝ), (0 : ℝ)) (by rw [h4]; simp)
    rw [h4] at hmem
    simp only [List.mem_cons, List.not_mem_nil, or_false] at hmem
    have hbad : ¬ hilbertBnd1 0 0 (1 / 10) (1 / 10) = ((1 : ℝ), (1 : ℝ)) := by
      intro h
      rw [show hilbertBnd1 0 0 (1 / 10) (1 / 10) =
        (List.insertionSort (fun a b => hilbertProj 0 0 (1 / 10) (1 / 10) a ≤
          hilbertProj 0 0 (1 / 10) (1 / 10) b) (hilbertInters 0 0 (1 / 10) (1 / 10))).headD
          (0, 0) from rfl] at h
      rw [h, h7] at hmin
      linarith
    rcases hmem with h | h | h | h
    · exact h
    · exact absurd h hbad
    · exact h
    · exact absurd h hbad
  have h9 : hilbertD11 0 0 (1 / 10) (1 / 10) = 0 := by
    rw [hilbertD11, h8, dist2]
    norm_num [jpow_def, Real.zero_rpow]
  rw [hilbertBody, h4]
  rw [if_neg (by norm_num)]
  rw [hilbertCross, h9]
  rw [if_pos (Or.inl (by norm_num))]
  rw [min_eq_left (hilbertD12_nonneg 0 0 (1 / 10) (1 / 10)),
    min_eq_left (hilbertD21_nonneg 0 0 (1 / 10) (1 / 10)),
    min_eq_left (hilbertD22_nonneg 0 0 (1 / 10) (1 / 10))]
  norm_num

theorem hilbert_vertical_forward :
    calculateDistance 300 0 300 300 ("hilbert") 2 800 600 = 100000000000 := by
  rw [calculateDistance_hilbert, hilbertDistance, if_neg (by norm_num)]
  rw [show (300 : ℝ) / 800 = 3 / 8 by norm_num, show (0 : ℝ) / 600 = 0 by norm_num,
    show (300 : ℝ) / 600 = 1 / 2 by norm_num]
  have h2 : hilbertM (3 / 8) 0 (3 / 8) (1 / 2) = 500000 := by
    rw [hilbertM, jsOr]
    norm_num
  have h3 : hilbertB (3 / 8) 0 (3 / 8) (1 / 2) = -187500 := by
    rw [hilbertB, h2]
    norm_num
  have h4 : hilbertInters (3 / 8) 0 (3 / 8) (1 / 2) =
      [((3 / 8 : ℝ), (0 : ℝ)), ((187501 / 500000 : ℝ), (1 : ℝ))] := by
    rw [hilbertInters, h2, h3, hilbertIntersections]
    norm_num
  have hnil : hilbertInters (3 / 8) 0 (3 / 8) (1 / 2) ≠ [] := by
    rw [h4]
    simp
  have h6 : 0 < hilbertProj (3 / 8) 0 (3 / 8) (1 / 2) (187501 / 500000, 1) := by
    rw [hilbertProj_frac, hilbertLineDist]
    norm_num
  have h7 : hilbertProj (3 / 8) 0 (3 / 8) (1 / 2) (3 / 8, 0) = 0 := by
    rw [hilbertProj_frac]
    norm_num
  have h8 : hilbertBnd1 (3 / 8) 0 (3 / 8) (1 / 2) = (3 / 8, 0) := by
    have hh := sorted_key_head (hilbertProj (3 / 8) 0 (3 / 8) (1 / 2))
      (hilbertInters (3 / 8) 0 (3 / 8) (1 / 2)) hnil ((0 : ℝ), (0 : ℝ))
    have hmem : hilbertBnd1 (3 / 8) 0 (3 / 8) (1 / 2) ∈
        hilbertInters (3 / 8) 0 (3 / 8) (1 / 2) := hh.1
    have hmin := hh.2 ((3 / 8 : ℝ), (0 : ℝ)) (by rw [h4]; simp)
    rw [h4] at hmem
    simp only [List.mem_cons, List.not_mem_nil, or_false] at hmem
    rcases hmem with h | h
    · exact h
    · exfalso
      rw [show hilbertBnd1 (3 / 8) 0 (3 / 8) (1 / 2) =
        (List.insertionSort (fun a b => hilbertProj (3 / 8) 0 (3 / 8) (1 / 2) a ≤
          hilbertProj (3 / 8) 0 (3 / 8) (1 / 2) b)
          (hilbertInters (3 / 8) 0 (3 / 8) (1 / 2))).headD (0, 0) from rfl] at h
      rw [h, h7] at hmin
      linarith
  have h9 : hilbertD11 (3 / 8) 0 (3 / 8) (1 / 2) = 0 := by
    rw [hilbertD11, h8, dist2]
    norm_num [jpow_def, Real.zero_rpow]
  rw [hilbertBody, h4]
  rw [if_neg (by norm_num)]
  rw [hilbertCross, h9]
  rw [if_pos (Or.inl (by norm_num))]
  rw [min_eq_left (hilbertD12_nonneg (3 / 8) 0 (3 / 8) (1 / 2)),
    min_eq_left (hilbertD21_nonneg (3 / 8) 0 (3 / 8) (1 / 2)),
    min_eq_left (hilbertD22_nonneg (3 / 8) 0 (3 / 8) (1 / 2))]
  norm_num

theorem hilbert_vertical_reverse_lt :
    calculateDistance 300 300 300 0 ("hilbert") 2 800 600 < 100000000000 := by
  rw [calculateDistance_hilbert, hilbertDistance, if_neg (by norm_num)]
  rw [show (300 : ℝ) / 800 = 3 / 8 by norm_num, show (300 : ℝ) / 600 = 1 / 2 by norm_num,
    show (0 : ℝ) / 600 = 0 by norm_num]
  have h2 : hilbertM (3 / 8) (1 / 2) (3 / 8) 0 = -500000 := by
    rw [hilbertM, jsOr]
    norm_num
  have h3 : hilbertB (3 / 8) (1 / 2) (3 / 8) 0 = 375001 / 2 := by
    rw [hilbertB, h2]
    norm_num
  have h4 : hilbertInters (3 / 8) (1 / 2) (3 / 8) 0 =
      [((375001 / 1000000 : ℝ), (0 : ℝ)), ((374999 / 1000000 : ℝ), (1 : ℝ))] := by
    rw [hilbertInters, h2, h3, hilbertIntersections]
    norm_num
  have hnil : hilbertInters (3 / 8) (1 / 2) (3 / 8) 0 ≠ [] := by
    rw [h4]
    simp
  have hL : hilbertLineDist (3 / 8) (1 / 2) (3 / 8) 0 = 1 / 2 := by
    rw [hilbertLineDist,
      show ((3 / 8 : ℝ) - 3 / 8) * ((3 / 8 : ℝ) - 3 / 8) +
          ((0 : ℝ) - 1 / 2) * ((0 : ℝ) - 1 / 2) = (1 / 2) ^ 2 by norm_num,
      Real.sqrt_sq (by norm_num)]
  have hpT : hilbertProj (3 / 8) (1 / 2) (3 / 8) 0 (375001 / 1000000, 0) = 1 / 2 := by
    rw [hilbertProj_frac, hL]
    norm_num
  have hpB : hilbertProj (3 / 8) (1 / 2) (3 / 8) 0 (374999 / 1000000, 1) = -(1 / 2) := by
    rw [hilbertProj_frac, hL]
    norm_num
  have hB1 : hilbertBnd1 (3 / 8) (1 / 2) (3 / 8) 0 = (374999 / 1000000, 1) := by
    have hh := sorted_key_head (hilbertProj (3 / 8) (1 / 2) (3 / 8) 0)
      (hilbertInters (3 / 8) (1 / 2) (3 / 8) 0) hnil ((0 : ℝ), (0 : ℝ))
    have hmem : hilbertBnd1 (3 / 8) (1 / 2) (3 / 8) 0 ∈
        hilbertInters (3 / 8) (1 / 2) (3 / 8) 0 := hh.1
    have hmin := hh.2 ((374999 / 1000000 : ℝ), (1 : ℝ)) (by rw [h4]; simp)
    rw [h4] at hmem
    simp only [List.mem_cons, List.not_mem_nil, or_false] at hmem
    rcases hmem with h | h
    · exfalso
      rw [show hilbertBnd1 (3 / 8) (1 / 2) (3 / 8) 0 =
        (List.insertionSort (fun a b => hilbertProj (3 / 8) (1 / 2) (3 / 8) 0 a ≤
          hilbertProj (3 / 8) (1 / 2) (3 / 8) 0 b)
          (hilbertInters (3 / 8) (1 / 2) (3 / 8) 0)).headD (0, 0) from rfl] at h
      rw [h, hpT, hpB] at hmin
      linarith
    · exact h
  have hB2 : hilbertBnd2 (3 / 8) (1 / 2) (3 / 8) 0 = (375001 / 1000000, 0) := by
    have hl := sorted_key_last (hilbertProj (3 / 8) (1 / 2) (3 / 8) 0)
      (hilbertInters (3 / 8) (1 / 2) (3 / 8) 0) hnil ((0 : ℝ), (0 : ℝ))
    have hmem : hilbertBnd2 (3 / 8) (1 / 2) (3 / 8) 0 ∈
        hilbertInters (3 / 8) (1 / 2) (3 / 8) 0 := hl.1
    have hmax := hl.2 ((375001 / 1000000 : ℝ), (0 : ℝ)) (by rw [h4]; simp)
    rw [h4] at hmem
    simp only [List.mem_cons, List.not_mem_nil, or_false] at hmem
    rcases hmem with h | h
    · exact h
    · exfalso
      rw [show hilbertBnd2 (3 / 8) (1 / 2) (3 / 8) 0 =
        (List.insertionSort (fun a b => hilbertProj (3 / 8) (1 / 2) (3 / 8) 0 a ≤
          hilbertProj (3 / 8) (1 / 2) (3 / 8) 0 b)
          (hilbertInters (3 / 8) (1 / 2) (3 / 8) 0)).getLastD (0, 0) from rfl] at h
      rw [h, hpB] at hmax
      rw [hpT] at hmax
      linarith
  have hD11 : hilbertD11 (3 / 8) (1 / 2) (3 / 8) 0 =
      Real.sqrt (250000000001 / 1000000000000) := by
    rw [hilbertD11, hB1, dist2]
    simp only [jpow_two]
    rw [show ((3 / 8 : ℝ) - 374999 / 1000000) ^ 2 + ((1 / 2 : ℝ) - 1) ^ 2 =
      250000000001 / 1000000000000 by norm_num]
  have hD12 : hilbertD12 (3 / 8) (1 / 2) (3 / 8) 0 =
      Real.sqrt (250000000001 / 1000000000000) := by
    rw [hilbertD12, hB2, dist2]
    simp only [jpow_two]
    rw [show ((3 / 8 : ℝ) - 375001 / 1000000) ^ 2 + ((1 / 2 : ℝ) - 0) ^ 2 =
      250000000001 / 1000000000000 by norm_num]
  have hD21 : hilbertD21 (3 / 8) (1 / 2) (3 / 8) 0 =
      Real.sqrt (1000000000001 / 1000000000000) := by
    rw [hilbertD21, hB1, dist2]
    simp only [jpow_two]
    rw [show ((3 / 8 : ℝ) - 374999 / 1000000) ^ 2 + ((0 : ℝ) - 1) ^ 2 =
      1000000000001 / 1000000000000 by norm_num]
  have hD22 : hilbertD22 (3 / 8) (1 / 2) (3 / 8) 0 = 1 / 1000000 := by
    rw [hilbertD22, hB2, dist2]
    simp only [jpow_two]
    rw [show ((3 / 8 : ℝ) - 375001 / 1000000) ^ 2 + ((0 : ℝ) - 0) ^ 2 =
        (1 / 1000000) ^ 2 by norm_num, Real.sqrt_sq (by norm_num)]
  have hS1 : (1 / 2 : ℝ) ≤ Real.sqrt (250000000001 / 1000000000000) := by
    rw [show (1 / 2 : ℝ) = Real.sqrt ((1 / 2) ^ 2) by rw [Real.sqrt_sq]; norm_num]
    apply Real.sqrt_le_sqrt
    norm_num
  have hS1pos : (0 : ℝ) < Real.sqrt (250000000001 / 1000000000000) :=
    lt_of_lt_of_le (by norm_num) hS1
  have hS2ge : (1 : ℝ) ≤ Real.sqrt (1000000000001 / 1000000000000) := by
    rw [show (1 : ℝ) = Real.sqrt 1 from Real.sqrt_one.symm]
    apply Real.sqrt_le_sqrt
    norm_num
  have hS2le : Real.sqrt (1000000000001 / 1000000000000) ≤ 2 := by
    rw [show (2 : ℝ) = Real.sqrt (2 ^ 2) from (Real.sqrt_sq (by norm_num)).symm]
    apply Real.sqrt_le_sqrt
    norm_num
  rw [hilbertBody, h4, if_neg (by norm_num), hilbertCross, hD11, hD12, hD21, hD22]
  rw [if_neg (by push_neg; exact ⟨by linarith, by linarith, by linarith, by norm_num⟩)]
  have hcr : Real.sqrt (250000000001 / 1000000000000) *
        Real.sqrt (1000000000001 / 1000000000000) /
        (1 / 1000000 * Real.sqrt (250000000001 / 1000000000000)) =
      1000000 * Real.sqrt (1000000000001 / 1000000000000) := by
    field_simp
    linear_combination (Real.sqrt 250000000001 * Real.sqrt 1000000000001 * 1000000) *
      Real.mul_self_sqrt (show (0 : ℝ) ≤ 1000000000000 by norm_num)
  rw [hcr]
  have hcrge : (1 : ℝ) ≤ 1000000 * Real.sqrt (1000000000001 / 1000000000000) := by
    nlinarith [hS2ge]
  rw [abs_of_nonneg (Real.log_nonneg hcrge)]
  have hlog := Real.log_le_sub_one_of_pos
    (show (0 : ℝ) < 1000000 * Real.sqrt (1000000000001 / 1000000000000) by nlinarith [hS2ge])
  rw [min_eq_right (show (600 : ℝ) ≤ 800 by norm_num)]
  nlinarith [hS2le, hlog]

/-- Claim C5 (counterexample): the hilbert metric is not symmetric.  For
the vertical pair `(300, 0)` and `(300, 300)` on the 800x600 canvas, the
forward direction hits the near-boundary special case and returns `10^11`,
while the reverse direction takes the cross-ratio branch and returns a
value below `10^9`. -/
theorem C5_counterexample :
    calculateDistance 300 0 300 300 ("hilbert") 2 800 600 ≠
      calculateDistance 300 300 300 0 ("hilbert") 2 800 600 := by
  intro hcon
  have h1 := hilbert_vertical_forward
  have h2 := hilbert_vertical_reverse_lt
  rw [← hcon] at h2
  rw [h1] at h2
  exact absurd h2 (lt_irrefl _)
